import Mathlib

/-!
# Verification of the img-glsl-webui rendering core

Shallow embedding of the rendering-engine core of the `img-glsl-webui`
repository: the transform mapper (`getTransformedTexCoords` in
`src/js/image-handler.js`), the history manager (`saveToHistory` / `undo` /
`redo` in the `GLSLWebUIApp` orchestrator), the time model (`togglePause` /
`render`), the shader compiler lifecycle (`ShaderCompiler.compileProgram` /
`cleanup` in `js/shader-compiler.js`) and the shader-error log parser
(`parseShaderErrors`).

JavaScript numbers appearing in these code paths are exact small integers or
exact dyadic fractions, so they are modelled as `ℤ` (texture coordinates,
which only ever hold `0`, `1` and `1 - x` of those — exact in a double),
`ℚ` (times, divided by 1000) and `Int`/`Nat` (rotations, indices).  The
JavaScript `%` operator is
the truncated remainder (sign of the dividend), modelled by `Int.tmod`.
-/

namespace ImgGlsl

/-! ## Transform mapper (`src/js/image-handler.js`, `getTransformedTexCoords`)

The source selects a base table by `switch (rotation % 360)` with cases
`0 | 90 | 180 | 270` and a default equal to the `0` case, then flips the
even-indexed (U) components when `mirrorX` holds and the odd-indexed (V)
components when `mirrorY` holds.
-/

/-- The `switch (rotation % 360)` statement of `getTransformedTexCoords`:
JavaScript `%` is truncated remainder, so `Int.tmod`. -/
def rotTexCoords (rotation : Int) : List ℤ :=
  let r := Int.tmod rotation 360
  if r = 0 then [0, 1, 1, 1, 0, 0, 1, 0]
  else if r = 90 then [0, 0, 0, 1, 1, 0, 1, 1]
  else if r = 180 then [1, 0, 0, 0, 1, 1, 0, 1]
  else if r = 270 then [1, 1, 1, 0, 0, 1, 0, 0]
  else [0, 1, 1, 1, 0, 0, 1, 0]

/-- The mirroring loops of `getTransformedTexCoords`: starting from index `i`,
replace every element whose index has parity `parity` by `1 - x` (the
`for (let i = parity; i < texCoords.length; i += 2) texCoords[i] = 1 - texCoords[i]`
loops, with `parity = 0` for `mirrorX` and `parity = 1` for `mirrorY`). -/
def mirrorStride (parity : Nat) : Nat → List ℤ → List ℤ
  | _, [] => []
  | i, u :: rest =>
      (if i % 2 = parity then 1 - u else u) :: mirrorStride parity (i + 1) rest

/-- Model of `getTransformedTexCoords(rotation, mirrorX, mirrorY)` from
`src/js/image-handler.js`. -/
def getTransformedTexCoords (rotation : Int) (mirrorX mirrorY : Bool) : List ℤ :=
  let texCoords := rotTexCoords rotation
  let texCoords := if mirrorX then mirrorStride 0 0 texCoords else texCoords
  if mirrorY then mirrorStride 1 0 texCoords else texCoords

/-- Grouping of a texcoord list into consecutive UV pairs (how the
triangle-strip consumes the buffer, two floats per vertex). -/
def texPairs : List ℤ → List (ℤ × ℤ)
  | u :: v :: rest => (u, v) :: texPairs rest
  | _ => []

/-! ## History manager (`GLSLWebUIApp.saveToHistory` / `undo` / `redo`)

The orchestrator keeps `this.history` (a JS array), `this.historyIndex`
(initialised to `-1`) and `this.maxHistory = 50`.  `saveToHistory` pushes a
snapshot, `shift`s the oldest entry off when the length exceeds the bound and
moves the index to the new tip; `undo`/`redo` move the index by one inside
the bounds and apply the entry at the new index.
-/

/-- The history fields of `GLSLWebUIApp`: the snapshot array and the cursor
(`historyIndex`, a JS number that starts at `-1`). -/
structure HistoryState (α : Type) where
  history : List α
  historyIndex : Int
  deriving DecidableEq, Repr

/-- The constructor state: `this.history = []; this.historyIndex = -1`. -/
def emptyHistory {α : Type} : HistoryState α := ⟨[], -1⟩

/-- Model of `GLSLWebUIApp.saveToHistory()`: push the snapshot, `shift` the oldest
entry off when the length exceeds `maxHistory`, set the cursor to the tip. -/
def saveToHistory {α : Type} (maxHistory : Nat) (s : HistoryState α) (entry : α) :
    HistoryState α :=
  let h := s.history ++ [entry]
  let h := if maxHistory < h.length then h.drop 1 else h
  { history := h, historyIndex := (h.length : Int) - 1 }

/-- Model of `GLSLWebUIApp.undo()`: when `historyIndex > 0`, decrement it and apply
(the second component models the entry handed to `applyHistoryState`);
otherwise do nothing. -/
def undo {α : Type} (s : HistoryState α) : HistoryState α × Option α :=
  if 0 < s.historyIndex then
    let i := s.historyIndex - 1
    ({ history := s.history, historyIndex := i }, s.history.get? i.toNat)
  else (s, none)

/-- Model of `GLSLWebUIApp.redo()`: when `historyIndex < history.length - 1`,
increment it and apply the entry at the new index; otherwise do nothing. -/
def redo {α : Type} (s : HistoryState α) : HistoryState α × Option α :=
  if s.historyIndex < (s.history.length : Int) - 1 then
    let i := s.historyIndex + 1
    ({ history := s.history, historyIndex := i }, s.history.get? i.toNat)
  else (s, none)

/-- A sequence of `saveToHistory` calls at the source capacity
`this.maxHistory = 50`. -/
def pushAll {α : Type} (s : HistoryState α) (es : List α) : HistoryState α :=
  es.foldl (saveToHistory 50) s

/-! ## Time model (`GLSLWebUIApp.togglePause` and the `render` time line)

Fields: `this.startTime` (epoch milliseconds), `this.timePaused : Bool`,
`this.pausedTime` (seconds, or `null`).  `togglePause` flips the flag; on
pausing it stores `(Date.now() - this.startTime) / 1000`, on resuming it
nulls `pausedTime` and sets `startTime = Date.now()`.  `render` feeds
`timePaused ? pausedTime : (Date.now() - startTime) / 1000` into the `time`
uniform.  `Date.now()` is passed in explicitly as `now`.
-/

/-- The time fields of `GLSLWebUIApp`. -/
structure TimeState where
  startTime : ℚ
  timePaused : Bool
  pausedTime : Option ℚ
  deriving DecidableEq, Repr

/-- Model of `GLSLWebUIApp.togglePause()` (DEVELOPMENT.md lines 1517-1529). -/
def togglePause (now : ℚ) (s : TimeState) : TimeState :=
  let paused := !s.timePaused
  if paused then
    { s with timePaused := true, pausedTime := some ((now - s.startTime) / 1000) }
  else
    { startTime := now, timePaused := false, pausedTime := none }

/-- The `currentTime` value computed at the top of `GLSLWebUIApp.render()`:
`this.timePaused ? this.pausedTime : (Date.now() - this.startTime) / 1000.0`
(`none` models the JS `null` that a paused state without a stored
`pausedTime` would hand to the uniform). -/
def currentTime (now : ℚ) (s : TimeState) : Option ℚ :=
  if s.timePaused then s.pausedTime else some ((now - s.startTime) / 1000)

/-! ## Render frame (`GLSLWebUIApp.render`, DEVELOPMENT.md lines 1621-1654)

`render()` early-returns when `!this.gl || !this.program || !this.buffers`;
otherwise it sets the viewport, clears, calls `shaderCompiler.useProgram()`
(a no-op when the compiler holds no program), sets the `time` uniform
(skipped when the lookup returns `null`), binds the texture and `tex`
uniform only when `this.imageTexture` exists, binds the position/texcoord
attributes only when their locations are `>= 0`, and finally draws the quad.
The GPU side effects are modelled as an emitted command list; none of the
`this.*` fields are assigned, so the engine state is returned unchanged.
-/

/-- A linked program as the uniform/attribute lookup table the render path
consults: `getUniformLocation` results for `time` and `tex` (`none` = JS
`null`) and `getAttribLocation` results for `a_position` / `a_texcoord`
(`-1` when absent). -/
structure ProgramInfo where
  timeLoc : Option Nat
  texLoc : Option Nat
  aPositionLoc : Int
  aTexcoordLoc : Int
  deriving DecidableEq, Repr

/-- The engine fields read by `GLSLWebUIApp.render()`.  `program` is the
app-level `this.program` reference that the guard checks;
`compilerProgram` is `shaderCompiler.currentProgram`, which the uniform and
attribute lookups consult (they can differ after a failed recompile). -/
structure EngineState where
  gl : Bool
  program : Option ProgramInfo
  compilerProgram : Option ProgramInfo
  buffers : Option (Nat × Nat)
  imageTexture : Option Nat
  time : TimeState
  deriving DecidableEq, Repr

/-- One GPU call issued by `render()`. -/
inductive GLCmd where
  | viewport
  | clear
  | useProgram
  | uniformTime (value : Option ℚ)
  | activeTexture
  | bindTexture (handle : Nat)
  | uniformTex
  | bindAttrib (buffer : Nat)
  | drawQuad
  deriving DecidableEq, Repr

/-- Model of `ShaderCompiler.getUniformLocation` as used from `render()`: `null`
without a current program, otherwise the program's lookup result. -/
def uniformLoc (cp : Option ProgramInfo) (sel : ProgramInfo → Option Nat) : Option Nat :=
  match cp with
  | none => none
  | some p => sel p

/-- Model of `ShaderCompiler.getAttributeLocation` as used from `render()`: `-1`
without a current program, otherwise the program's lookup result. -/
def attribLoc (cp : Option ProgramInfo) (sel : ProgramInfo → Int) : Int :=
  match cp with
  | none => -1
  | some p => sel p

/-- Model of `GLSLWebUIApp.render()`: the returned state is the (unchanged) engine
state and the list of GPU commands the call issues, in order. -/
def render (e : EngineState) (now : ℚ) : EngineState × List GLCmd :=
  match e.gl, e.program, e.buffers with
  | true, some _, some bufs =>
      let t := currentTime now e.time
      let useCmds : List GLCmd :=
        match e.compilerProgram with
        | some _ => [GLCmd.useProgram]
        | none => []
      let timeCmds : List GLCmd :=
        match uniformLoc e.compilerProgram ProgramInfo.timeLoc with
        | some _ => [GLCmd.uniformTime t]
        | none => []
      let texCmds : List GLCmd :=
        match e.imageTexture with
        | some h =>
            [GLCmd.activeTexture, GLCmd.bindTexture h] ++
              (match uniformLoc e.compilerProgram ProgramInfo.texLoc with
               | some _ => [GLCmd.uniformTex]
               | none => [])
        | none => []
      let posCmds : List GLCmd :=
        if 0 ≤ attribLoc e.compilerProgram ProgramInfo.aPositionLoc then
          [GLCmd.bindAttrib bufs.1]
        else []
      let texAttrCmds : List GLCmd :=
        if 0 ≤ attribLoc e.compilerProgram ProgramInfo.aTexcoordLoc then
          [GLCmd.bindAttrib bufs.2]
        else []
      (e, [GLCmd.viewport, GLCmd.clear] ++ useCmds ++ timeCmds ++ texCmds ++
            posCmds ++ texAttrCmds ++ [GLCmd.drawQuad])
  | _, _, _ => (e, [])

/-! ## Shader compiler lifecycle (`js/shader-compiler.js`)

`ShaderCompiler.compileProgram(vertexSource, fragmentSource)` first calls
`this.cleanup()`, which deletes (and nulls) `vertexShader`,
`fragmentShader` and `currentProgram`; only then does it attempt the new
compile.  The outcomes of the three GPU steps (`createShader` twice,
`createProgram`) are environmental and passed in as `Option` handles
(`none` = the helper returned `null` after a failed compile/link).
-/

/-- The handle-holding fields of `ShaderCompiler`. -/
structure ShaderCompilerState where
  currentProgram : Option Nat
  vertexShader : Option Nat
  fragmentShader : Option Nat
  deriving DecidableEq, Repr

/-- Model of `ShaderCompiler.cleanup()`: deletes whichever of the three handles are
non-null and nulls the fields.  Returns the new state together with the
list of GL handles passed to `deleteShader`/`deleteProgram`. -/
def cleanup (s : ShaderCompilerState) : ShaderCompilerState × List Nat :=
  (⟨none, none, none⟩,
    s.vertexShader.toList ++ s.fragmentShader.toList ++ s.currentProgram.toList)

/-- Model of `ShaderCompiler.compileProgram(vertexSource, fragmentSource)`:
`vres`/`fres` are the results of `createShader` on the two stages and
`lres` the result of `createProgram` (each `none` on failure).  Returns the
new compiler state, the value returned to the caller (`none` = JS `null`)
and the handles destroyed by the initial `cleanup()` call. -/
def compileProgram (vres fres lres : Option Nat) (s : ShaderCompilerState) :
    ShaderCompilerState × Option Nat × List Nat :=
  let (s0, deleted) := cleanup s
  match vres with
  | none => (s0, none, deleted)
  | some v =>
      let s1 := { s0 with vertexShader := some v }
      match fres with
      | none => (s1, none, deleted)
      | some f =>
          let s2 := { s1 with fragmentShader := some f }
          match lres with
          | none => (s2, none, deleted)
          | some p => ({ s2 with currentProgram := some p }, some p, deleted)

/-! ## Shader error-log parsing (`parseShaderErrors` in `js/shader-compiler.js`)

The source splits the log on `'\n'` and, for each line, applies the
unanchored regular expression `ERROR: (\d+):(\d+): (.+)`, pushing
`{ line: parseInt(match[2]), column: parseInt(match[1]),
message: match[3].trim() }` for each line that matches.  The regex engine
tries successive start positions left to right; at a candidate position the
pattern needs the literal `ERROR: `, a maximal nonempty digit run, `:`, a
second maximal nonempty digit run, `: ` and at least one further character
(`.+` then consumes the rest of the line, which `trim` strips).
-/

/-- One parsed diagnostic record. -/
structure ShaderError where
  line : Nat
  column : Nat
  message : String
  deriving DecidableEq, Repr

/-- Decimal value of a digit run (what `parseInt` yields on it). -/
def digitsVal (ds : List Char) : Nat :=
  ds.foldl (fun n c => 10 * n + (c.toNat - Char.toNat '0')) 0

/-- Splits off the maximal leading digit run (how the greedy `\d+` consumes
characters: it can never end before a digit, and cannot cross a non-digit). -/
def takeDigits : List Char → List Char × List Char
  | [] => ([], [])
  | c :: cs =>
      if c.isDigit then (c :: (takeDigits cs).1, (takeDigits cs).2)
      else ([], c :: cs)

/-- Model of `String.prototype.trim` on the characters of `match[3]` (which contains
no newline, so ASCII whitespace stripping is exact on these inputs). -/
def trimChars (cs : List Char) : List Char :=
  ((cs.dropWhile Char.isWhitespace).reverse.dropWhile Char.isWhitespace).reverse

/-- Matching of `(\d+):(\d+): (.+)` against the characters following an
`ERROR: ` literal: maximal digit runs for the two groups (both nonempty),
the literal `: `, and a nonempty remainder for group 3. -/
def matchAfterError (cs : List Char) : Option (Nat × Nat × List Char) :=
  match (takeDigits cs).2 with
  | c1 :: r2 =>
      if (takeDigits cs).1.isEmpty ∨ c1 ≠ ':' then none
      else
        match (takeDigits r2).2 with
        | c3 :: c4 :: rest =>
            if (takeDigits r2).1.isEmpty ∨ c3 ≠ ':' ∨ c4 ≠ ' ' ∨ rest.isEmpty then
              none
            else some (digitsVal (takeDigits cs).1, digitsVal (takeDigits r2).1, rest)
        | _ => none
  | _ => none

/-- Model of `line.match(/ERROR: (\d+):(\d+): (.+)/)` followed by the record
construction: try each start position left to right; a position can only
start a match if the literal `ERROR: ` sits there, and then the groups
must match.  Group 1 becomes `column`, group 2 becomes `line`, group 3 is
trimmed into `message`. -/
def findErrorMatch : List Char → Option ShaderError
  | [] => none
  | c :: cs =>
      if (c :: cs).take 7 = "ERROR: ".toList then
        match matchAfterError ((c :: cs).drop 7) with
        | some (col, line, rest) => some ⟨line, col, String.mk (trimChars rest)⟩
        | none => findErrorMatch cs
      else findErrorMatch cs

/-- Model of `errorLog.split('\n')` on the characters of the log: the
(possibly empty) stretches between newline characters, in order. -/
def splitLines : List Char → List (List Char)
  | [] => [[]]
  | c :: cs =>
      if c = '\n' then [] :: splitLines cs
      else
        match splitLines cs with
        | [] => [[c]]
        | l :: ls => (c :: l) :: ls

/-- Model of `parseShaderErrors(errorLog)`: split on `'\n'`, run the regex on
each line, and push a record for each match (the `forEach` + `push` loop). -/
def parseShaderErrors (errorLog : String) : List ShaderError :=
  (splitLines errorLog.toList).foldl
    (fun errors line =>
      match findErrorMatch line with
      | some e => errors ++ [e]
      | none => errors)
    []

/-- Declarative reading of the spec's line format `ERROR: <col>:<line>:
<message>`: the line decomposes around the literal with nonempty digit
groups and a nonempty message tail, and the record's fields are the parsed
group values with the message trimmed. -/
def MatchesErrorFormat (cs : List Char) (e : ShaderError) : Prop :=
  ∃ pre d1 d2 rest : List Char,
    cs = pre ++ "ERROR: ".toList ++ d1 ++ [':'] ++ d2 ++ ':' :: ' ' :: rest ∧
    d1 ≠ [] ∧ (∀ c ∈ d1, c.isDigit) ∧
    d2 ≠ [] ∧ (∀ c ∈ d2, c.isDigit) ∧
    rest ≠ [] ∧
    e.column = digitsVal d1 ∧ e.line = digitsVal d2 ∧
    e.message = String.mk (trimChars rest)

/-! ## Theorems -/

/-- The `switch` only ever produces one of the four documented tables. -/
lemma rotTexCoords_cases (r : Int) :
    rotTexCoords r = [0, 1, 1, 1, 0, 0, 1, 0] ∨
    rotTexCoords r = [0, 0, 0, 1, 1, 0, 1, 1] ∨
    rotTexCoords r = [1, 0, 0, 0, 1, 1, 0, 1] ∨
    rotTexCoords r = [1, 1, 1, 0, 0, 1, 0, 0] := by
  unfold rotTexCoords
  dsimp only
  split_ifs <;> simp

/-- Flipping a stride of entries by `x ↦ 1 - x` twice restores the list. -/
lemma mirrorStride_involutive (p : Nat) : ∀ (i : Nat) (l : List ℤ),
    mirrorStride p i (mirrorStride p i l) = l
  | _, [] => rfl
  | i, u :: rest => by
    by_cases h : i % 2 = p <;>
      simp [mirrorStride, h, sub_sub_cancel, mirrorStride_involutive p (i + 1) rest]

/-- C3 counterexample: rotation `450` is not one of `{0, 90, 180, 270}`,
yet `getTransformedTexCoords` returns the 90° table, not the 0° table,
because the `switch` tests `rotation % 360 = 90`. -/
theorem texcoords_rotation_450_cex :
    getTransformedTexCoords 450 false false = [0, 0, 0, 1, 1, 0, 1, 1] ∧
    getTransformedTexCoords 450 false false ≠ [0, 1, 1, 1, 0, 0, 1, 0] := by
  decide

/-- C3 (amended): with `mirrorX = mirrorY = false`, the four canonical
rotations return exactly their documented 8-value tables, and for every
other integer rotation the table is selected by the JavaScript remainder
`rotation % 360` (sign of the dividend): remainders `90`, `180`, `270` get
those tables (e.g. `450` gets the 90° table, `540` the 180° table, `630`
the 270° table), and every other remainder — including remainder `0` and
all negative remainders such as that of `-90` — falls back to the 0°
table. -/
theorem texcoords_rotation_tables (r : Int) :
    getTransformedTexCoords 0 false false = [0, 1, 1, 1, 0, 0, 1, 0] ∧
    getTransformedTexCoords 90 false false = [0, 0, 0, 1, 1, 0, 1, 1] ∧
    getTransformedTexCoords 180 false false = [1, 0, 0, 0, 1, 1, 0, 1] ∧
    getTransformedTexCoords 270 false false = [1, 1, 1, 0, 0, 1, 0, 0] ∧
    (Int.tmod r 360 = 90 →
      getTransformedTexCoords r false false = [0, 0, 0, 1, 1, 0, 1, 1]) ∧
    (Int.tmod r 360 = 180 →
      getTransformedTexCoords r false false = [1, 0, 0, 0, 1, 1, 0, 1]) ∧
    (Int.tmod r 360 = 270 →
      getTransformedTexCoords r false false = [1, 1, 1, 0, 0, 1, 0, 0]) ∧
    (Int.tmod r 360 ≠ 90 → Int.tmod r 360 ≠ 180 → Int.tmod r 360 ≠ 270 →
      getTransformedTexCoords r false false = [0, 1, 1, 1, 0, 0, 1, 0]) := by
  refine ⟨by decide, by decide, by decide, by decide, ?_, ?_, ?_, ?_⟩
  · intro h90
    simp [getTransformedTexCoords, rotTexCoords, h90]
  · intro h180
    simp [getTransformedTexCoords, rotTexCoords, h180]
  · intro h270
    simp [getTransformedTexCoords, rotTexCoords, h270]
  · intro h90 h180 h270
    by_cases h0 : Int.tmod r 360 = 0 <;>
      simp [getTransformedTexCoords, rotTexCoords, h0, h90, h180, h270]

/-- Witness for `texcoords_rotation_tables`: rotation `540` (remainder
`180`) gets the 180° table, rotation `630` (remainder `270`) gets the 270°
table, and rotation `45` (remainder `45`) falls back to the 0° table. -/
theorem texcoords_rotation_tables_witness :
    Int.tmod 540 360 = 180 ∧
    getTransformedTexCoords 540 false false = [1, 0, 0, 0, 1, 1, 0, 1] ∧
    Int.tmod 630 360 = 270 ∧
    getTransformedTexCoords 630 false false = [1, 1, 1, 0, 0, 1, 0, 0] ∧
    Int.tmod 45 360 ≠ 90 ∧ Int.tmod 45 360 ≠ 180 ∧ Int.tmod 45 360 ≠ 270 ∧
    getTransformedTexCoords 45 false false = [0, 1, 1, 1, 0, 0, 1, 0] :=
  ⟨by decide, (texcoords_rotation_tables 540).2.2.2.2.2.1 (by decide),
    by decide, (texcoords_rotation_tables 630).2.2.2.2.2.2.1 (by decide),
    by decide, by decide, by decide,
    (texcoords_rotation_tables 45).2.2.2.2.2.2.2 (by decide) (by decide) (by decide)⟩

/-- C4: the `mirrorX` pass (`u ↦ 1 - u` on even indices) and the `mirrorY`
pass (`v ↦ 1 - v` on odd indices) are involutions on the output of
`getTransformedTexCoords`, for every integer rotation and every mirror-flag
combination: applying either pass twice returns the coordinates unchanged. -/
theorem mirror_involution (r : Int) (mx my : Bool) :
    mirrorStride 0 0 (mirrorStride 0 0 (getTransformedTexCoords r mx my)) =
        getTransformedTexCoords r mx my ∧
    mirrorStride 1 0 (mirrorStride 1 0 (getTransformedTexCoords r mx my)) =
        getTransformedTexCoords r mx my :=
  ⟨mirrorStride_involutive 0 0 _, mirrorStride_involutive 1 0 _⟩

/-- C10: for every integer rotation and mirror-flag combination,
`getTransformedTexCoords` returns exactly 8 values whose 4 consecutive UV
pairs are a permutation of the four unit-square corners. -/
theorem texcoords_corner_perm (r : Int) (mx my : Bool) :
    (getTransformedTexCoords r mx my).length = 8 ∧
    (texPairs (getTransformedTexCoords r mx my)).Perm
      [(0, 0), (0, 1), (1, 0), (1, 1)] := by
  rcases rotTexCoords_cases r with h | h | h | h <;>
    cases mx <;> cases my <;>
      (simp only [getTransformedTexCoords, h]; decide)

/-- A push below capacity appends the entry and moves the cursor onto it. -/
lemma saveToHistory_no_evict {α : Type} (s : HistoryState α) (e : α)
    (h : s.history.length + 1 ≤ 50) :
    saveToHistory 50 s e = ⟨s.history ++ [e], (s.history.length : Int)⟩ := by
  have hc : ¬ 50 < (s.history ++ [e]).length := by
    simp only [List.length_append, List.length_cons, List.length_nil]
    omega
  simp only [saveToHistory]
  rw [if_neg hc]
  simp only [HistoryState.mk.injEq, List.length_append, List.length_cons,
    List.length_nil]
  exact ⟨trivial, by push_cast; ring⟩

/-- A push at (or beyond) capacity appends the entry and drops the oldest. -/
lemma saveToHistory_evict {α : Type} (s : HistoryState α) (e : α)
    (h : 50 ≤ s.history.length) :
    saveToHistory 50 s e =
      ⟨(s.history ++ [e]).drop 1, ((s.history ++ [e]).length : Int) - 2⟩ := by
  have hc : 50 < (s.history ++ [e]).length := by
    simp only [List.length_append, List.length_cons, List.length_nil]
    omega
  have h1 : 1 ≤ (s.history ++ [e]).length := by
    simp only [List.length_append, List.length_cons, List.length_nil]
    omega
  simp only [saveToHistory]
  rw [if_pos hc]
  simp only [HistoryState.mk.injEq, List.length_drop]
  exact ⟨trivial, by push_cast [Nat.cast_sub h1]; ring⟩

/-- Pushing a block of entries that fits under the capacity appends them all
and (when the block is nonempty) leaves the cursor on the tip. -/
lemma pushAll_spec {α : Type} : ∀ (es : List α) (s : HistoryState α),
    s.history.length + es.length ≤ 50 →
    (pushAll s es).history = s.history ++ es ∧
    (es = [] → pushAll s es = s) ∧
    (es ≠ [] →
      (pushAll s es).historyIndex = (s.history.length : Int) + es.length - 1)
  | [], s, _ => ⟨by simp [pushAll], fun _ => rfl, fun h => absurd rfl h⟩
  | e :: es, s, h => by
    have hfit : s.history.length + 1 ≤ 50 := by
      simp only [List.length_cons] at h
      omega
    have hstep := saveToHistory_no_evict s e hfit
    have hrec := pushAll_spec es (saveToHistory 50 s e)
      (by rw [hstep]; simp only [List.length_append, List.length_cons,
            List.length_nil, List.length_cons] at h ⊢; omega)
    have hfold : pushAll s (e :: es) = pushAll (saveToHistory 50 s e) es := rfl
    refine ⟨?_, fun hne => by simp at hne, fun _ => ?_⟩
    · rw [hfold, hrec.1, hstep]
      simp
    · by_cases hes : es = []
      · subst hes
        rw [hfold, hrec.2.1 rfl, hstep]
        simp
      · rw [hfold, hrec.2.2 hes, hstep]
        simp only [List.length_append, List.length_cons, List.length_nil]
        push_cast
        ring

/-- C5: after `N` pushes (`2 ≤ N ≤ 50`) from the empty history, `undo`
applies the entry pushed at step `N - 1` and a following `redo` re-applies
the entry pushed at step `N`; moreover `undo` at cursor `0` and `redo` at
the tip change nothing. -/
theorem history_undo_redo {α : Type} (es : List α) (t u : HistoryState α)
    (h2 : 2 ≤ es.length) (h50 : es.length ≤ 50)
    (ht : t.historyIndex = 0)
    (hu : u.historyIndex = (u.history.length : Int) - 1) :
    (undo (pushAll emptyHistory es)).2 = es.get? (es.length - 2) ∧
    (redo (undo (pushAll emptyHistory es)).1).2 = es.get? (es.length - 1) ∧
    undo t = (t, none) ∧
    redo u = (u, none) := by
  obtain ⟨hh, -, hi⟩ := pushAll_spec es emptyHistory (by simpa [emptyHistory] using h50)
  have hne : es ≠ [] := by
    intro h
    rw [h] at h2
    simp at h2
  have hh2 : (pushAll emptyHistory es).history = es := by
    simpa [emptyHistory] using hh
  have hi2 : (pushAll emptyHistory es).historyIndex = (es.length : Int) - 1 := by
    rw [hi hne]
    simp [emptyHistory]
  have hlen2 : 2 ≤ es.length := h2
  have hundo : undo (pushAll emptyHistory es) =
      (⟨es, (es.length : Int) - 1 - 1⟩, es.get? (es.length - 2)) := by
    rw [undo, if_pos (by rw [hi2]; omega)]
    dsimp only
    rw [hi2, hh2]
    have harith : ((es.length : Int) - 1 - 1).toNat = es.length - 2 := by omega
    rw [harith]
  refine ⟨by rw [hundo], ?_, ?_, ?_⟩
  · rw [hundo]
    have hcond : (⟨es, (es.length : Int) - 1 - 1⟩ : HistoryState α).historyIndex <
        ((⟨es, (es.length : Int) - 1 - 1⟩ : HistoryState α).history.length : Int) - 1 := by
      dsimp only
      omega
    rw [redo, if_pos hcond]
    dsimp only
    have harith : ((es.length : Int) - 1 - 1 + 1).toNat = es.length - 1 := by omega
    rw [harith]
  · rw [undo, if_neg (by rw [ht]; omega)]
  · rw [redo, if_neg (by rw [hu]; omega)]

/-- Witness for `history_undo_redo`: two pushes, then undo returns the
first entry and redo the second; a cursor-0 state and a tip state are left
unchanged. -/
theorem history_undo_redo_witness :
    2 ≤ [10, 20].length ∧ [10, 20].length ≤ 50 ∧
    (⟨[7], 0⟩ : HistoryState ℕ).historyIndex = 0 ∧
    (⟨[7], 0⟩ : HistoryState ℕ).historyIndex =
      (((⟨[7], 0⟩ : HistoryState ℕ).history.length : Int) - 1) ∧
    ((undo (pushAll emptyHistory [10, 20])).2 = [10, 20].get? ([10, 20].length - 2) ∧
      (redo (undo (pushAll emptyHistory [10, 20])).1).2 =
        [10, 20].get? ([10, 20].length - 1) ∧
      undo (⟨[7], 0⟩ : HistoryState ℕ) = (⟨[7], 0⟩, none) ∧
      redo (⟨[7], 0⟩ : HistoryState ℕ) = (⟨[7], 0⟩, none)) :=
  ⟨by decide, by decide, rfl, by decide,
    history_undo_redo [10, 20] ⟨[7], 0⟩ ⟨[7], 0⟩ (by decide) (by decide) rfl (by decide)⟩

/-- C6: pushing 51 entries onto the empty 50-capacity history evicts exactly
the first entry: the result is the pushed sequence minus its head, of length
50, whose oldest element is the entry pushed 2nd and whose newest is the
entry pushed 51st. -/
theorem history_eviction {α : Type} (es : List α) (h : es.length = 51) :
    (pushAll emptyHistory es).history = es.drop 1 ∧
    (pushAll emptyHistory es).history.length = 50 ∧
    (pushAll emptyHistory es).history.head? = es.get? 1 ∧
    (pushAll emptyHistory es).history.getLast? = es.getLast? := by
  rcases List.eq_nil_or_concat es with rfl | ⟨ys, y, rfl⟩
  · simp at h
  · rw [List.concat_eq_append] at h ⊢
    have hys : ys.length = 50 := by
      simp only [List.length_append, List.length_cons, List.length_nil] at h
      omega
    have hy0 : ys ≠ [] := by
      intro hy
      rw [hy] at hys
      simp at hys
    have hfold : pushAll emptyHistory (ys ++ [y]) =
        saveToHistory 50 (pushAll emptyHistory ys) y := by
      rw [pushAll, List.foldl_append]
      rfl
    have hhist : (pushAll emptyHistory ys).history = ys := by
      simpa [emptyHistory] using
        (pushAll_spec ys emptyHistory (by simp [emptyHistory, hys])).1
    have hstep := saveToHistory_evict (pushAll emptyHistory ys) y
      (by rw [hhist, hys])
    have hmain : (pushAll emptyHistory (ys ++ [y])).history = (ys ++ [y]).drop 1 := by
      rw [hfold, hstep, hhist]
    refine ⟨hmain, ?_, ?_, ?_⟩
    · rw [hmain, List.length_drop, h]
    · rw [hmain, List.head?_drop, List.get?_eq_getElem?]
    · rw [hmain, List.drop_append_of_le_length (by omega)]
      rw [List.getLast?_concat, List.getLast?_concat]

/-- Witness for `history_eviction` at the 51 pushes `0, 1, …, 50`. -/
theorem history_eviction_witness :
    (List.range 51).length = 51 ∧
    ((pushAll emptyHistory (List.range 51)).history = (List.range 51).drop 1 ∧
      (pushAll emptyHistory (List.range 51)).history.length = 50 ∧
      (pushAll emptyHistory (List.range 51)).history.head? = (List.range 51).get? 1 ∧
      (pushAll emptyHistory (List.range 51)).history.getLast? = (List.range 51).getLast?) :=
  ⟨by decide, history_eviction (List.range 51) (by decide)⟩

/-- C7 counterexample: with the cursor at `0`, strictly below the tip of the
3-entry history, pushing a fourth entry keeps every formerly-forward entry
(`20` and `30`) instead of truncating them. -/
theorem saveToHistory_no_truncation_cex :
    (⟨[10, 20, 30], 0⟩ : HistoryState ℕ).historyIndex <
      (((⟨[10, 20, 30], 0⟩ : HistoryState ℕ).history.length : Int) - 1) ∧
    (saveToHistory 50 (⟨[10, 20, 30], 0⟩ : HistoryState ℕ) 40).history =
      [10, 20, 30, 40] ∧
    20 ∈ (saveToHistory 50 (⟨[10, 20, 30], 0⟩ : HistoryState ℕ) 40).history ∧
    30 ∈ (saveToHistory 50 (⟨[10, 20, 30], 0⟩ : HistoryState ℕ) 40).history := by
  decide

/-- C7 (amended): pushing a new entry while the cursor sits strictly below
the tip appends at the tip without truncating the forward entries: the new
entry becomes the last element, the cursor moves to `length - 1`, and every
entry that was ahead of the old cursor position is still in the stack. -/
theorem saveToHistory_appends_keeps_forward {α : Type} (s : HistoryState α)
    (e : α) (i : Nat) (x : α)
    (h0 : 0 ≤ s.historyIndex)
    (hc : s.historyIndex < (s.history.length : Int) - 1)
    (hi : s.historyIndex < (i : Int))
    (hx : s.history.get? i = some x) :
    (saveToHistory 50 s e).history.getLast? = some e ∧
    (saveToHistory 50 s e).historyIndex =
      ((saveToHistory 50 s e).history.length : Int) - 1 ∧
    x ∈ (saveToHistory 50 s e).history := by
  have hi1 : 1 ≤ i := by omega
  refine ⟨?_, ?_, ?_⟩
  · by_cases hcap : 50 ≤ s.history.length
    · rw [saveToHistory_evict s e hcap]
      have hsne : s.history ≠ [] := by
        intro hnil
        rw [hnil] at hcap
        simp at hcap
      obtain ⟨c, cs, hcons⟩ := List.exists_cons_of_ne_nil hsne
      dsimp only
      rw [hcons, List.cons_append, List.drop_one, List.tail_cons, List.getLast?_concat]
    · rw [saveToHistory_no_evict s e (by omega)]
      exact List.getLast?_concat _
  · by_cases hcap : 50 ≤ s.history.length
    · rw [saveToHistory_evict s e hcap]
      dsimp only
      rw [List.length_drop]
      have h1 : 1 ≤ (s.history ++ [e]).length := by simp
      push_cast [Nat.cast_sub h1]
      ring
    · rw [saveToHistory_no_evict s e (by omega)]
      dsimp only
      simp only [List.length_append, List.length_cons, List.length_nil]
      push_cast
      ring
  · have hilt : i < s.history.length := by
      by_contra hge
      rw [List.get?_eq_none.mpr (by omega)] at hx
      exact Option.noConfusion hx
    by_cases hcap : 50 ≤ s.history.length
    · rw [saveToHistory_evict s e hcap]
      dsimp only
      have hdrop : ((s.history ++ [e]).drop 1).get? (i - 1) = some x := by
        rw [List.get?_drop]
        have h1i : 1 + (i - 1) = i := by omega
        rw [h1i, List.get?_append hilt]
        exact hx
      exact List.get?_mem hdrop
    · rw [saveToHistory_no_evict s e (by omega)]
      dsimp only
      have hmem : x ∈ s.history := List.get?_mem hx
      simp [hmem]

/-- Witness for `saveToHistory_appends_keeps_forward`: cursor `0` under a
3-entry history, pushing `40` keeps the forward entry `30`. -/
theorem saveToHistory_appends_keeps_forward_witness :
    (0 : Int) ≤ (⟨[10, 20, 30], 0⟩ : HistoryState ℕ).historyIndex ∧
    (⟨[10, 20, 30], 0⟩ : HistoryState ℕ).historyIndex <
      (((⟨[10, 20, 30], 0⟩ : HistoryState ℕ).history.length : Int) - 1) ∧
    (⟨[10, 20, 30], 0⟩ : HistoryState ℕ).historyIndex < ((2 : Nat) : Int) ∧
    (⟨[10, 20, 30], 0⟩ : HistoryState ℕ).history.get? 2 = some 30 ∧
    ((saveToHistory 50 (⟨[10, 20, 30], 0⟩ : HistoryState ℕ) 40).history.getLast? =
        some 40 ∧
      (saveToHistory 50 (⟨[10, 20, 30], 0⟩ : HistoryState ℕ) 40).historyIndex =
        (((saveToHistory 50 (⟨[10, 20, 30], 0⟩ : HistoryState ℕ) 40).history.length : Int) - 1) ∧
      30 ∈ (saveToHistory 50 (⟨[10, 20, 30], 0⟩ : HistoryState ℕ) 40).history) :=
  ⟨by decide, by decide, by decide, by decide,
    saveToHistory_appends_keeps_forward ⟨[10, 20, 30], 0⟩ 40 2 30
      (by decide) (by decide) (by decide) (by decide)⟩

/-- C2 counterexample: pausing at elapsed 5 s and resuming immediately (no
time passes) does not leave the computed elapsed time unchanged — resume
sets `startTime = Date.now()`, so the elapsed time restarts at `0` instead
of continuing from `5`. -/
theorem togglePause_resume_cex :
    currentTime 5000 (togglePause 5000 (⟨0, false, none⟩ : TimeState)) = some 5 ∧
    currentTime 5000
        (togglePause 5000 (togglePause 5000 (⟨0, false, none⟩ : TimeState))) =
      some 0 ∧
    (5 : ℚ) ≠ 0 := by
  refine ⟨by norm_num [togglePause, currentTime],
    by norm_num [togglePause, currentTime], by norm_num⟩

/-- C2 (amended): `togglePause` in the running state captures the frozen
elapsed seconds `(now - startTime) / 1000`, but `togglePause` again in the
paused state resets `startTime` to `now` (not `now` minus the frozen
elapsed time), so the elapsed time fed to the `time` uniform restarts at
`0` on resume; pause-then-immediate-resume preserves the elapsed time only
when it was `0`. -/
theorem togglePause_code_behavior (s : TimeState) (now : ℚ)
    (hrun : s.timePaused = false) :
    (togglePause now s).timePaused = true ∧
    (togglePause now s).pausedTime = some ((now - s.startTime) / 1000) ∧
    currentTime now (togglePause now s) = some ((now - s.startTime) / 1000) ∧
    togglePause now (togglePause now s) = ⟨now, false, none⟩ ∧
    currentTime now (togglePause now (togglePause now s)) = some 0 := by
  refine ⟨?_, ?_, ?_, ?_, ?_⟩ <;>
    · simp [togglePause, currentTime, hrun]

/-- Witness for `togglePause_code_behavior` at start epoch `0`, toggling
twice at `now = 5000` ms. -/
theorem togglePause_code_behavior_witness :
    (⟨0, false, none⟩ : TimeState).timePaused = false ∧
    ((togglePause 5000 (⟨0, false, none⟩ : TimeState)).timePaused = true ∧
      (togglePause 5000 (⟨0, false, none⟩ : TimeState)).pausedTime =
        some ((5000 - (⟨0, false, none⟩ : TimeState).startTime) / 1000) ∧
      currentTime 5000 (togglePause 5000 (⟨0, false, none⟩ : TimeState)) =
        some ((5000 - (⟨0, false, none⟩ : TimeState).startTime) / 1000) ∧
      togglePause 5000 (togglePause 5000 (⟨0, false, none⟩ : TimeState)) =
        ⟨5000, false, none⟩ ∧
      currentTime 5000
          (togglePause 5000 (togglePause 5000 (⟨0, false, none⟩ : TimeState))) =
        some 0) :=
  ⟨rfl, togglePause_code_behavior ⟨0, false, none⟩ 5000 rfl⟩

/-- C8 counterexample: an engine state with a GL context, a program and
buffers but no image texture still issues the draw call — `render()` checks
`this.gl`, `this.program` and `this.buffers` but not `this.imageTexture`,
so a missing texture does not make the call a no-op. -/
theorem render_draws_without_texture_cex :
    (⟨true, some ⟨some 0, some 1, 0, 1⟩, some ⟨some 0, some 1, 0, 1⟩,
        some (1, 2), none, ⟨0, false, none⟩⟩ : EngineState).imageTexture = none ∧
    GLCmd.drawQuad ∈
      (render ⟨true, some ⟨some 0, some 1, 0, 1⟩, some ⟨some 0, some 1, 0, 1⟩,
          some (1, 2), none, ⟨0, false, none⟩⟩ 0).2 := by
  refine ⟨rfl, ?_⟩
  simp [render, uniformLoc, attribLoc, currentTime]

/-- C8 (amended): `render()` is a no-op — no GPU command at all, engine
state unchanged — exactly when the GL context, the app-level program
reference or the buffers are missing; a missing image texture does not
suppress the draw (the quad is drawn without binding a texture, see the
counterexample). -/
theorem render_noop (e : EngineState) (now : ℚ)
    (h : e.gl = false ∨ e.program = none ∨ e.buffers = none) :
    render e now = (e, []) := by
  cases hgl : e.gl <;> rcases hp : e.program with _ | p <;>
    rcases hb : e.buffers with _ | b <;> simp_all [render]

/-- Witness for `render_noop`: a state with a GL context and buffers but a
null program reference renders nothing. -/
theorem render_noop_witness :
    ((⟨true, none, none, some (1, 2), some 3, ⟨0, false, none⟩⟩ :
        EngineState).gl = false ∨
      (⟨true, none, none, some (1, 2), some 3, ⟨0, false, none⟩⟩ :
        EngineState).program = none ∨
      (⟨true, none, none, some (1, 2), some 3, ⟨0, false, none⟩⟩ :
        EngineState).buffers = none) ∧
    render (⟨true, none, none, some (1, 2), some 3, ⟨0, false, none⟩⟩ :
        EngineState) 0 =
      (⟨true, none, none, some (1, 2), some 3, ⟨0, false, none⟩⟩, []) :=
  ⟨Or.inr (Or.inl rfl),
    render_noop ⟨true, none, none, some (1, 2), some 3, ⟨0, false, none⟩⟩ 0
      (Or.inr (Or.inl rfl))⟩

/-- C1: `compileProgram` destroys the previously active program before
attempting the new compile.  Starting from a manager whose current program
is handle `7`, a call whose vertex stage fails to compile (`createShader`
returns `null`) deletes program `7` in the initial `cleanup()` and leaves
`currentProgram = null`, returning `null` to the caller — the engine is
left without a renderable program instead of retaining the old one (the
retain-until-success behaviour the spec states as intended). -/
theorem compileProgram_destroys_previous :
    compileProgram none (some 2) (some 3) ⟨some 7, none, none⟩ =
      (⟨none, none, none⟩, none, [7]) ∧
    (⟨some 7, none, none⟩ : ShaderCompilerState).currentProgram = some 7 := by
  decide

/-- The digit run and the remainder together restore the scanned list. -/
lemma takeDigits_append : ∀ cs : List Char,
    (takeDigits cs).1 ++ (takeDigits cs).2 = cs
  | [] => rfl
  | c :: cs => by
      by_cases hc : c.isDigit <;>
        simp [takeDigits, hc, takeDigits_append cs]

/-- Every character of the captured digit run is a digit. -/
lemma takeDigits_digits : ∀ (cs : List Char), ∀ c ∈ (takeDigits cs).1, c.isDigit
  | [] => by simp [takeDigits]
  | c :: cs => by
      by_cases hc : c.isDigit
      · intro x hx
        rw [takeDigits, if_pos hc] at hx
        rcases List.mem_cons.mp hx with rfl | hx2
        · exact hc
        · exact takeDigits_digits cs x hx2
      · simp [takeDigits, hc]

/-- On a digit run followed by a colon, the greedy `\d+` captures exactly
the run. -/
lemma takeDigits_digits_colon : ∀ (d t : List Char), (∀ c ∈ d, c.isDigit) →
    takeDigits (d ++ ':' :: t) = (d, ':' :: t)
  | [], t, _ => by
      rw [List.nil_append, takeDigits, if_neg (by decide)]
  | a :: d, t, hd => by
      have ha : a.isDigit := hd a (List.mem_cons_self a d)
      rw [List.cons_append, takeDigits, if_pos ha,
        takeDigits_digits_colon d t (fun c hc => hd c (List.mem_cons_of_mem a hc))]

/-- Soundness of the group matcher: a successful match decomposes its input
into two nonempty digit runs, the separators, and the nonempty message
tail, and returns the parsed group values. -/
lemma matchAfterError_sound (cs : List Char) (col line : Nat) (rest : List Char)
    (h : matchAfterError cs = some (col, line, rest)) :
    ∃ d1 d2 : List Char,
      cs = d1 ++ ':' :: d2 ++ ':' :: ' ' :: rest ∧
      d1 ≠ [] ∧ (∀ c ∈ d1, c.isDigit) ∧
      d2 ≠ [] ∧ (∀ c ∈ d2, c.isDigit) ∧
      rest ≠ [] ∧ col = digitsVal d1 ∧ line = digitsVal d2 := by
  rw [matchAfterError] at h
  rcases h1 : (takeDigits cs).2 with _ | ⟨c1, r2⟩ <;> rw [h1] at h
  · exact absurd h (by simp)
  · dsimp only at h
    by_cases hg1 : (takeDigits cs).1.isEmpty ∨ c1 ≠ ':'
    · rw [if_pos hg1] at h
      exact absurd h (by simp)
    · rw [if_neg hg1] at h
      push_neg at hg1
      obtain ⟨hne1, hc1⟩ := hg1
      rcases h2 : (takeDigits r2).2 with _ | ⟨c3, r3⟩ <;> rw [h2] at h
      · exact absurd h (by simp)
      · rcases r3 with _ | ⟨c4, rest2⟩
        · exact absurd h (by simp)
        · dsimp only at h
          by_cases hg2 : (takeDigits r2).1.isEmpty ∨ c3 ≠ ':' ∨ c4 ≠ ' ' ∨
              rest2.isEmpty
          · rw [if_pos hg2] at h
            exact absurd h (by simp)
          · rw [if_neg hg2] at h
            push_neg at hg2
            obtain ⟨hne2, hc3, hc4, hrne⟩ := hg2
            obtain ⟨hcol, hline, hrest⟩ :
                col = digitsVal (takeDigits cs).1 ∧
                line = digitsVal (takeDigits r2).1 ∧ rest2 = rest := by
              have := Option.some.inj h
              exact ⟨congrArg Prod.fst this |>.symm,
                congrArg (fun p => p.2.1) this |>.symm,
                congrArg (fun p => p.2.2) this⟩
            subst hc1 hc3 hc4 hrest
            refine ⟨(takeDigits cs).1, (takeDigits r2).1, ?_, ?_, takeDigits_digits cs,
              ?_, takeDigits_digits r2, ?_, hcol, hline⟩
            · conv_lhs => rw [← takeDigits_append cs]
              rw [h1]
              conv_lhs => rw [show r2 = (takeDigits r2).1 ++ (takeDigits r2).2 from
                (takeDigits_append r2).symm]
              rw [h2]
              simp
            · simpa using hne1
            · simpa using hne2
            · simpa using hrne

/-- Completeness of the group matcher on a well-formed tail. -/
lemma matchAfterError_complete (d1 d2 rest : List Char)
    (h1 : d1 ≠ []) (hd1 : ∀ c ∈ d1, c.isDigit)
    (h2 : d2 ≠ []) (hd2 : ∀ c ∈ d2, c.isDigit)
    (hr : rest ≠ []) :
    matchAfterError (d1 ++ ':' :: d2 ++ ':' :: ' ' :: rest) =
      some (digitsVal d1, digitsVal d2, rest) := by
  have hassoc : d1 ++ ':' :: d2 ++ ':' :: ' ' :: rest =
      d1 ++ ':' :: (d2 ++ ':' :: ' ' :: rest) := by simp
  rw [hassoc, matchAfterError]
  rw [takeDigits_digits_colon d1 (d2 ++ ':' :: ' ' :: rest) hd1]
  dsimp only
  rw [takeDigits_digits_colon d2 (' ' :: rest) hd2]
  dsimp only
  rw [if_neg (by simp [h1]), if_neg (by simp [h2, hr])]

/-- Soundness of the line scanner: a successful scan means the line matches
the diagnostic format, with the record fields taken from the groups. -/
lemma findErrorMatch_sound : ∀ (cs : List Char) (e : ShaderError),
    findErrorMatch cs = some e → MatchesErrorFormat cs e
  | [], e, h => by simp [findErrorMatch] at h
  | c :: cs, e, h => by
      rw [findErrorMatch] at h
      by_cases hpre : (c :: cs).take 7 = "ERROR: ".toList
      · rw [if_pos hpre] at h
        rcases hm : matchAfterError ((c :: cs).drop 7) with _ | ⟨col, line, rest⟩ <;>
          rw [hm] at h
        · dsimp only at h
          obtain ⟨pre, d1, d2, rest, hdec, hp⟩ := findErrorMatch_sound cs e h
          exact ⟨c :: pre, d1, d2, rest, by rw [List.cons_append]; exact congrArg (c :: ·) hdec, hp⟩
        · dsimp only at h
          obtain ⟨d1, d2, hdec, hd1ne, hd1, hd2ne, hd2, hrne, hcol, hline⟩ :=
            matchAfterError_sound _ col line rest hm
          obtain rfl : e = ⟨line, col, String.mk (trimChars rest)⟩ :=
            (Option.some.inj h).symm
          refine ⟨[], d1, d2, rest, ?_, hd1ne, hd1, hd2ne, hd2, hrne, hcol, hline, rfl⟩
          have hsplit : c :: cs = "ERROR: ".toList ++ (c :: cs).drop 7 := by
            conv_lhs => rw [← List.take_append_drop 7 (c :: cs)]
            rw [hpre]
          rw [List.nil_append, hsplit, hdec]
          simp
      · rw [if_neg hpre] at h
        obtain ⟨pre, d1, d2, rest, hdec, hp⟩ := findErrorMatch_sound cs e h
        exact ⟨c :: pre, d1, d2, rest, by rw [List.cons_append]; exact congrArg (c :: ·) hdec, hp⟩

/-- Completeness of the line scanner: a line matching the diagnostic
format is extracted (the regex finds some match on it). -/
lemma findErrorMatch_complete : ∀ (cs : List Char) (e : ShaderError),
    MatchesErrorFormat cs e → (findErrorMatch cs).isSome
  | [], e, hm => by
      obtain ⟨pre, d1, d2, rest, hdec, -⟩ := hm
      have hlen := congrArg List.length hdec
      have h7 : ("ERROR: ".toList).length = 7 := by decide
      simp only [List.length_nil, List.length_append, List.length_cons, h7] at hlen
      exact absurd hlen (by omega)
  | c :: cs, e, hm => by
      obtain ⟨pre, d1, d2, rest, hdec, hd1ne, hd1, hd2ne, hd2, hrne, hfields⟩ := hm
      have h7 : ("ERROR: ".toList).length = 7 := by decide
      rcases pre with _ | ⟨p, pre2⟩
      · rw [List.nil_append] at hdec
        have hshape : c :: cs =
            "ERROR: ".toList ++ (d1 ++ ':' :: d2 ++ ':' :: ' ' :: rest) := by
          rw [hdec]
          simp
        have hpre : (c :: cs).take 7 = "ERROR: ".toList := by
          rw [hshape, ← h7, List.take_left]
        have hdrop : (c :: cs).drop 7 = d1 ++ ':' :: d2 ++ ':' :: ' ' :: rest := by
          rw [hshape, ← h7, List.drop_left]
        rw [findErrorMatch, if_pos hpre, hdrop,
          matchAfterError_complete d1 d2 rest hd1ne hd1 hd2ne hd2 hrne]
        simp
      · rw [List.cons_append] at hdec
        have hcs : MatchesErrorFormat cs e :=
          ⟨pre2, d1, d2, rest, (List.cons.injEq _ _ _ _ ▸ hdec).2,
            hd1ne, hd1, hd2ne, hd2, hrne, hfields⟩
        have hrec := findErrorMatch_complete cs e hcs
        rw [findErrorMatch]
        by_cases hpre : (c :: cs).take 7 = "ERROR: ".toList
        · rw [if_pos hpre]
          rcases hmm : matchAfterError ((c :: cs).drop 7) with _ | ⟨col2, line2, rest2⟩
          · dsimp only
            exact hrec
          · simp
        · rw [if_neg hpre]
          exact hrec

/-- The `forEach` + `push` loop of `parseShaderErrors` is a `filterMap`
over the lines, so the records come out in log-line order. -/
lemma parse_foldl_filterMap : ∀ (ls : List (List Char)) (acc : List ShaderError),
    (ls.foldl (fun errors line =>
        match findErrorMatch line with
        | some e => errors ++ [e]
        | none => errors) acc)
      = acc ++ ls.filterMap findErrorMatch
  | [], acc => by simp
  | l :: ls, acc => by
      rcases hm : findErrorMatch l with _ | e <;>
        simp [List.foldl_cons, List.filterMap_cons, hm, parse_foldl_filterMap ls]

/-- C9 counterexample: on the log `"ERROR: 0:5: a\nERROR: 0:2: b"` the
parser returns the records in log order `[line 5, line 2]`, which is not
sorted by ascending source line position. -/
theorem parseShaderErrors_order_cex :
    parseShaderErrors "ERROR: 0:5: a\nERROR: 0:2: b" =
      [⟨5, 0, "a"⟩, ⟨2, 0, "b"⟩] ∧
    ¬ List.Sorted (fun x y : ShaderError => x.line ≤ y.line)
        (parseShaderErrors "ERROR: 0:5: a\nERROR: 0:2: b") := by
  have hval : parseShaderErrors "ERROR: 0:5: a\nERROR: 0:2: b" =
      [⟨5, 0, "a"⟩, ⟨2, 0, "b"⟩] := by decide
  refine ⟨hval, ?_⟩
  rw [hval]
  intro hs
  have h52 := List.rel_of_sorted_cons hs ⟨2, 0, "b"⟩ (by simp)
  exact absurd h52 (by decide)

/-- C9 (amended): `parseShaderErrors` extracts exactly the lines of the
info log matching `ERROR: <col>:<line>: <message>` into records whose
`line` is the second number, `column` the first, and `message` the trimmed
tail; the resulting list preserves the order in which the lines appear in
the log (it is not re-sorted by ascending source line). -/
theorem parseShaderErrors_extraction (log : String) (e : ShaderError)
    (l : List Char) (e2 : ShaderError)
    (he : e ∈ parseShaderErrors log)
    (hl : l ∈ splitLines log.toList)
    (hm : MatchesErrorFormat l e2) :
    (∃ l2 ∈ splitLines log.toList, MatchesErrorFormat l2 e) ∧
    (findErrorMatch l).isSome ∧
    parseShaderErrors log = (splitLines log.toList).filterMap findErrorMatch := by
  have hchar : parseShaderErrors log =
      (splitLines log.toList).filterMap findErrorMatch := by
    rw [parseShaderErrors, parse_foldl_filterMap]
    rw [List.nil_append]
  refine ⟨?_, findErrorMatch_complete l e2 hm, hchar⟩
  rw [hchar] at he
  obtain ⟨l2, hl2, hfind⟩ := List.mem_filterMap.mp he
  exact ⟨l2, hl2, findErrorMatch_sound l2 e hfind⟩

/-- Witness for `parseShaderErrors_extraction` on the one-line log
`"ERROR: 1:2: x"`. -/
theorem parseShaderErrors_extraction_witness :
    (⟨2, 1, "x"⟩ : ShaderError) ∈ parseShaderErrors "ERROR: 1:2: x" ∧
    "ERROR: 1:2: x".toList ∈ splitLines "ERROR: 1:2: x".toList ∧
    MatchesErrorFormat ("ERROR: 1:2: x".toList) ⟨2, 1, "x"⟩ ∧
    ((∃ l2 ∈ splitLines "ERROR: 1:2: x".toList, MatchesErrorFormat l2 ⟨2, 1, "x"⟩) ∧
      (findErrorMatch "ERROR: 1:2: x".toList).isSome ∧
      parseShaderErrors "ERROR: 1:2: x" =
        (splitLines "ERROR: 1:2: x".toList).filterMap findErrorMatch) := by
  have hm : MatchesErrorFormat ("ERROR: 1:2: x".toList) ⟨2, 1, "x"⟩ :=
    ⟨[], ['1'], ['2'], ['x'], by decide, by decide, by decide, by decide,
      by decide, by decide, by decide, by decide, by decide⟩
  exact ⟨by decide, by decide, hm,
    parseShaderErrors_extraction "ERROR: 1:2: x" ⟨2, 1, "x"⟩
      ("ERROR: 1:2: x".toList) ⟨2, 1, "x"⟩ (by decide) (by decide) hm⟩

end ImgGlsl
